import Mathlib

/-!
Shallow embedding of the lexical front end of the rcc compiler
(src/lexer.rs) and of the constant-folding binary-operator evaluator
(src/node.rs), together with theorems settling the frozen claims about
the natural-language specification.

Conventions of the embedding:
* Rust `Option`-returning readers return `Option` inside the result.
* A Rust panic (`unwrap` on `None`, failed `assert_eq!`) is the
  `Res.panicked` outcome.
* `error::error_exit(line, msg)` and `process::exit(-1)` terminate the
  whole run; `error.rs` is not part of the sources, so, modelled from the
  spec (section 7: every failure terminates the run after printing a
  line-tagged message), both are the `Res.fatalErr line msg` outcome.
* Loops and recursion are driven by explicit fuel; running out of fuel is
  the distinguished outcome `Res.diverge`, never confused with a real
  result.
* Machine integers: `i32` values are `Int` with explicit reduction
  modulo `2 ^ 32` where overflow matters (release-profile wrapping);
  the overflow of `i32` division/remainder (`i32::MIN / -1`), which Rust
  always checks, is a panic.
-/

namespace Rcc

/-- Outcome of running a piece of the lexer: a value, a fatal
line-tagged error (process exit), a Rust panic, or fuel exhaustion. -/
inductive Res (α : Type) where
  | ok : α → Res α
  | fatalErr : Int → String → Res α
  | panicked : Res α
  | diverge : Res α
deriving DecidableEq

/-- Sequencing of lexer steps: errors, panics and fuel exhaustion
short-circuit. -/
def Res.bind {α β : Type} (r : Res α) (f : α → Res β) : Res β :=
  match r with
  | .ok a => f a
  | .fatalErr l m => .fatalErr l m
  | .panicked => .panicked
  | .diverge => .diverge

/-- `TokenKind` from src/lexer.rs. -/
inductive TokenKind where
  | Identifier
  | IntNumber
  | FloatNumber
  | String
  | Char
  | Symbol
  | Newline
deriving DecidableEq

/-- `Token` from src/lexer.rs: kind, leading-space flag, spelling, line. -/
structure Token where
  kind : TokenKind
  space : Bool
  val : String
  line : Int
deriving DecidableEq

/-- `Token::new`: fresh token with `space = false`. -/
def Token.new (kind : TokenKind) (val : String) (line : Int) : Token :=
  ⟨kind, false, val, line⟩

/-- `Macro` from src/lexer.rs (object-style only). -/
inductive Macro where
  | Object : List Token → Macro
deriving DecidableEq

/-- The process-wide macro table (`MacroMap`), threaded explicitly.
`HashMap::insert` overwrites, which the assoc list realizes by
prepending and looking up the first match. -/
def MacroMap : Type := List (String × Macro)

instance : DecidableEq MacroMap := inferInstanceAs (DecidableEq (List (String × Macro)))

/-- The mutable state of `Lexer` (the `MacroMap` global is threaded
separately): current line, display name, remaining characters of the
input, character pushback queue, token buffer. -/
structure LexerState where
  cur_line : Int
  filename : String
  peek : List Char
  peek_buf : List Char
  buf : List Token
deriving DecidableEq

/-- `Lexer::new`. -/
def Lexer.new (filename : String) (input : String) : LexerState :=
  ⟨1, filename, input.toList, [], []⟩

/-- Filesystem visible to `#include` processing: existence probes
(`Path::exists`) and file reads (`OpenOptions::open` + `read_to_string`,
`none` meaning the read fails). -/
structure Fs where
  pathExists : String → Bool
  readFile : String → Option String

/-- A filesystem on which no probe succeeds. -/
def emptyFs : Fs := ⟨fun _ => false, fun _ => none⟩

namespace Lexer

/-- `Lexer::peek_get`: one-character lookahead, pushback queue first. -/
def peek_get (st : LexerState) : Option Char :=
  st.peek_buf.head?.or st.peek.head?

/-- `Lexer::peek_next`: consume one character; `unwrap` panics when both
the pushback queue and the input are exhausted. -/
def peek_next (st : LexerState) : Res (Char × LexerState) :=
  match st.peek_buf with
  | c :: rest => .ok (c, { st with peek_buf := rest })
  | [] =>
    match st.peek with
    | c :: rest => .ok (c, { st with peek := rest })
    | [] => .panicked

/-- `Lexer::peek_unget`: `push_back` onto the character pushback queue. -/
def peek_unget (ch : Char) (st : LexerState) : LexerState :=
  { st with peek_buf := st.peek_buf ++ [ch] }

/-- `Lexer::peek_next_char_is`: read two characters, put both back,
compare the second. -/
def peek_next_char_is (ch : Char) (st : LexerState) : Res (Bool × LexerState) :=
  (peek_next st).bind fun (c, st) =>
  (peek_next st).bind fun (nextc, st) =>
  .ok (nextc == ch, peek_unget nextc (peek_unget c st))

/-- The message `error_exit` receives from `peek_char_is`:
`format!("expected '{}'", ch)`. -/
def errExpected (ch : Char) : String :=
  "expected '" ++ String.mk [ch] ++ "'"

/-- `Lexer::peek_char_is`: non-consuming comparison; at end of input it
calls `error_exit` (fatal, line-tagged). -/
def peek_char_is (ch : Char) (st : LexerState) : Res (Bool × LexerState) :=
  match peek_get st with
  | none => .fatalErr st.cur_line (errExpected ch)
  | some c => .ok (c == ch, st)

/-- `Lexer::unget`: `buf.push_back` of a whole token. -/
def unget (t : Token) (st : LexerState) : LexerState :=
  { st with buf := st.buf ++ [t] }

/-- Character class of the first branch of `do_read_token`
(`'a'..='z' | 'A'..='Z' | '_'`). -/
def isAlphaUS (c : Char) : Bool :=
  ('a' ≤ c && c ≤ 'z') || ('A' ≤ c && c ≤ 'Z') || c == '_'

/-- `'0'..='9'`. -/
def isDigitC (c : Char) : Bool :=
  '0' ≤ c && c ≤ '9'

/-- Continuation class of `read_identifier`
(`'a'..='z' | 'A'..='Z' | '_' | '0'..='9'`). -/
def isIdentCont (c : Char) : Bool :=
  isAlphaUS c || isDigitC c

/-- The loop of `Lexer::read_identifier`. -/
def read_ident_loop : Nat → String → LexerState → Res (String × LexerState)
  | 0, _, _ => .diverge
  | n + 1, acc, st =>
    match peek_get st with
    | some c =>
      if isIdentCont c then
        (peek_next st).bind fun (_, st) => read_ident_loop n (acc.push c) st
      else .ok (acc, st)
    | none => .ok (acc, st)

/-- `Lexer::read_identifier`. -/
def read_identifier (fuel : Nat) (st : LexerState) : Res (Token × LexerState) :=
  (read_ident_loop fuel "" st).bind fun (ident, st) =>
  .ok (Token.new .Identifier ident st.cur_line, st)

/-- The loop of `Lexer::read_number_literal`, tracking whether a `.` was
seen. -/
def read_num_loop : Nat → String → Bool → LexerState → Res (String × Bool × LexerState)
  | 0, _, _, _ => .diverge
  | n + 1, acc, isFloat, st =>
    match peek_get st with
    | some c =>
      if c == '.' || isDigitC c then
        (peek_next st).bind fun (_, st) =>
        read_num_loop n (acc.push c) (isFloat || c == '.') st
      else .ok (acc, isFloat, st)
    | none => .ok (acc, isFloat, st)

/-- `Lexer::read_number_literal`. -/
def read_number_literal (fuel : Nat) (st : LexerState) : Res (Token × LexerState) :=
  (read_num_loop fuel "" false st).bind fun (num, isFloat, st) =>
  if isFloat then .ok (Token.new .FloatNumber num st.cur_line, st)
  else .ok (Token.new .IntNumber num st.cur_line, st)

/-- `Lexer::read_newline`: consume the `\n`, bump the line counter, and
emit the internal newline token tagged with the incremented line. -/
def read_newline (st : LexerState) : Res (Token × LexerState) :=
  (peek_next st).bind fun (_, st) =>
  let st := { st with cur_line := st.cur_line + 1 }
  .ok (Token.new .Newline "" st.cur_line, st)

/-- `Lexer::read_symbol`: greedy multi-character operator scanning. -/
def read_symbol (st : LexerState) : Res (Token × LexerState) :=
  (peek_next st).bind fun (c, st) =>
  let sym := String.mk [c]
  if ['+', '-', '*', '/', '%', '=', '^', '!'].contains c then
    (peek_char_is '=' st).bind fun (b, st) =>
    if b then
      (peek_next st).bind fun (c2, st) =>
      .ok (Token.new .Symbol (sym.push c2) st.cur_line, st)
    else .ok (Token.new .Symbol sym st.cur_line, st)
  else if ['<', '>', '&', '|'].contains c then
    (peek_char_is c st).bind fun (b, st) =>
    ((if b then
        (peek_next st).bind fun (c2, st) => (.ok (sym.push c2, st) : Res (String × LexerState))
      else .ok (sym, st))).bind fun (sym2, st) =>
    (peek_char_is '=' st).bind fun (b2, st) =>
    if b2 then
      (peek_next st).bind fun (c3, st) =>
      .ok (Token.new .Symbol (sym2.push c3) st.cur_line, st)
    else .ok (Token.new .Symbol sym2 st.cur_line, st)
  else if c == '.' then
    (peek_char_is '.' st).bind fun (b, st) =>
    if b then
      (peek_next_char_is '.' st).bind fun (b2, st) =>
      if b2 then
        (peek_next st).bind fun (c2, st) =>
        (peek_next st).bind fun (c3, st) =>
        .ok (Token.new .Symbol ((sym.push c2).push c3) st.cur_line, st)
      else .ok (Token.new .Symbol sym st.cur_line, st)
    else .ok (Token.new .Symbol sym st.cur_line, st)
  else .ok (Token.new .Symbol sym st.cur_line, st)

/-- The loop of `Lexer::read_string_literal`: push characters until
`peek_char_is '"'` holds (fatal at end of input). -/
def read_strlit_loop : Nat → String → LexerState → Res (String × LexerState)
  | 0, _, _ => .diverge
  | n + 1, acc, st =>
    (peek_char_is '\"' st).bind fun (b, st) =>
    if b then .ok (acc, st)
    else (peek_next st).bind fun (c, st) => read_strlit_loop n (acc.push c) st

/-- `Lexer::read_string_literal`. -/
def read_string_literal (fuel : Nat) (st : LexerState) : Res (Token × LexerState) :=
  (peek_next st).bind fun (_, st) =>
  (read_strlit_loop fuel "" st).bind fun (s, st) =>
  (peek_next st).bind fun (_, st) =>
  .ok (Token.new .String s st.cur_line, st)

/-- The loop of `Lexer::read_char_literal`. -/
def read_charlit_loop : Nat → String → LexerState → Res (String × LexerState)
  | 0, _, _ => .diverge
  | n + 1, acc, st =>
    (peek_char_is '\'' st).bind fun (b, st) =>
    if b then .ok (acc, st)
    else (peek_next st).bind fun (c, st) => read_charlit_loop n (acc.push c) st

/-- `Lexer::read_char_literal`. -/
def read_char_literal (fuel : Nat) (st : LexerState) : Res (Token × LexerState) :=
  (peek_next st).bind fun (_, st) =>
  (read_charlit_loop fuel "" st).bind fun (s, st) =>
  (peek_next st).bind fun (_, st) =>
  .ok (Token.new .Char s st.cur_line, st)

/-- The block-comment loop of `do_read_token`:
`while !(peek_char_is '*' && peek_next_char_is '/')` with short-circuit
evaluation; the closing `*` `/` are left for the caller to consume. -/
def block_comment_loop : Nat → LexerState → Res LexerState
  | 0, _ => .diverge
  | n + 1, st =>
    (peek_char_is '*' st).bind fun (b1, st) =>
    if b1 then
      (peek_next_char_is '/' st).bind fun (b2, st) =>
      if b2 then .ok st
      else (peek_next st).bind fun (_, st) => block_comment_loop n st
    else (peek_next st).bind fun (_, st) => block_comment_loop n st

/-- The line-comment loop of `do_read_token`:
`while !peek_char_is '\n'`, leaving the newline unconsumed. -/
def line_comment_loop : Nat → LexerState → Res LexerState
  | 0, _ => .diverge
  | n + 1, st =>
    (peek_char_is '\n' st).bind fun (b, st) =>
    if b then .ok st
    else (peek_next st).bind fun (_, st) => line_comment_loop n st

/-- The filename-accumulation loop of `read_cpp_include`:
`while !peek_char_is '>'` reading raw characters. -/
def include_fname_loop : Nat → String → LexerState → Res (String × LexerState)
  | 0, _, _ => .diverge
  | n + 1, acc, st =>
    (peek_char_is '>' st).bind fun (b, st) =>
    if b then .ok (acc, st)
    else (peek_next st).bind fun (c, st) => include_fname_loop n (acc.push c) st

/-- The fixed search-prefix list of `cpp_try_include`. -/
def header_paths : List String :=
  ["./include/", "/include/", "/usr/include/", "/usr/include/linux/",
   "/usr/include/x86_64-linux-gnu/", ""]

/-- `Lexer::cpp_try_include`: first prefix whose concatenation with the
filename exists on the filesystem. -/
def cpp_try_include (fs : Fs) (filename : String) : Option String :=
  (header_paths.map (fun p => p ++ filename)).find? fs.pathExists

mutual

/-- `Lexer::do_read_token`: pop the token buffer first, otherwise
dispatch on the next character. -/
def do_read_token : Nat → LexerState → Res (Option Token × LexerState)
  | 0, _ => .diverge
  | n + 1, st =>
    match st.buf with
    | t :: rest => .ok (some t, { st with buf := rest })
    | [] =>
      match peek_get st with
      | none => .ok (none, st)
      | some c =>
        if isAlphaUS c then
          (read_identifier n st).bind fun (t, st) => .ok (some t, st)
        else if c == ' ' || c == '\t' then
          (peek_next st).bind fun (_, st) =>
          (read_token n st).bind fun (ot, st) =>
          .ok (ot.map fun t => { t with space := true }, st)
        else if isDigitC c then
          (read_number_literal n st).bind fun (t, st) => .ok (some t, st)
        else if c == '\"' then
          (read_string_literal n st).bind fun (t, st) => .ok (some t, st)
        else if c == '\'' then
          (read_char_literal n st).bind fun (t, st) => .ok (some t, st)
        else if c == '\n' then
          (read_newline st).bind fun (t, st) => .ok (some t, st)
        else if c == '\\' then
          (peek_next st).bind fun (_, st) => read_token n st
        else if c == '/' then
          (peek_next_char_is '*' st).bind fun (b, st) =>
          if b then
            (peek_next st).bind fun (_, st) =>
            (peek_next st).bind fun (_, st) =>
            (block_comment_loop n st).bind fun st =>
            (peek_next st).bind fun (_, st) =>
            (peek_next st).bind fun (_, st) =>
            do_read_token n st
          else
            (peek_next_char_is '/' st).bind fun (b2, st) =>
            if b2 then
              (peek_next st).bind fun (_, st) =>
              (peek_next st).bind fun (_, st) =>
              (line_comment_loop n st).bind fun st =>
              do_read_token n st
            else
              (read_symbol st).bind fun (t, st) => .ok (some t, st)
        else
          (read_symbol st).bind fun (t, st) => .ok (some t, st)

/-- `Lexer::read_token`: `do_read_token` with internal newline tokens
swallowed. -/
def read_token : Nat → LexerState → Res (Option Token × LexerState)
  | 0, _ => .diverge
  | n + 1, st =>
    (do_read_token n st).bind fun (ot, st) =>
    match ot with
    | some tok =>
      if tok.kind = TokenKind.Newline then read_token n st
      else .ok (some tok, st)
    | none => .ok (none, st)

/-- `Lexer::skip`: read one token (`unwrap` panics at end of input);
consume it when its spelling matches and it is not a string/char
literal, otherwise push it back onto the buffer. -/
def skip : Nat → String → LexerState → Res (Bool × LexerState)
  | 0, _, _ => .diverge
  | n + 1, s, st =>
    (read_token n st).bind fun (ot, st) =>
    match ot with
    | none => .panicked
    | some tok =>
      if tok.val = s ∧ tok.kind ≠ TokenKind.String ∧ tok.kind ≠ TokenKind.Char then
        .ok (true, st)
      else
        .ok (false, { st with buf := st.buf ++ [tok] })

/-- `Lexer::expand`: look the token's spelling up in the macro table;
on a hit, `unget` the replacement list in reverse order and read the
next token. -/
def expand : Nat → MacroMap → Option Token → LexerState → Res (Option Token × LexerState)
  | 0, _, _, _ => .diverge
  | n + 1, m, otok, st =>
    match otok with
    | none => .ok (none, st)
    | some tok =>
      match List.lookup tok.val m with
      | some (Macro.Object body) =>
        read_token n (body.reverse.foldl (fun s t => unget t s) st)
      | none => .ok (some tok, st)

/-- `Lexer::get`: the public entry point — directive recognition, then
macro expansion of the token about to be returned. -/
def get : Nat → Fs → MacroMap → LexerState → Res (Option Token × MacroMap × LexerState)
  | 0, _, _, _ => .diverge
  | n + 1, fs, m, st =>
    (read_token n st).bind fun (ot, st) =>
    match ot with
    | none => .ok (none, m, st)
    | some tok =>
      if tok.val = "#" then
        (read_cpp_directive n fs m st).bind fun (m, st) =>
        (get n fs m st).bind fun (ot2, m, st) =>
        (expand n m ot2 st).bind fun (ot3, st) =>
        .ok (ot3, m, st)
      else
        (expand n m (some tok) st).bind fun (ot3, st) =>
        .ok (ot3, m, st)

/-- `Lexer::read_cpp_directive`: read the directive keyword
(`unwrap` panics at end of input) and dispatch; unknown keywords are a
no-op. -/
def read_cpp_directive : Nat → Fs → MacroMap → LexerState → Res (MacroMap × LexerState)
  | 0, _, _, _ => .diverge
  | n + 1, fs, m, st =>
    (do_read_token n st).bind fun (ot, st) =>
    match ot with
    | none => .panicked
    | some t =>
      if t.val = "include" then read_cpp_include n fs m st
      else if t.val = "define" then read_cpp_define n m st
      else .ok (m, st)

/-- `Lexer::read_cpp_include`: optionally read `<filename>`, resolve via
`cpp_try_include` (fatal `process::exit` when no probe succeeds), read
the file (panicking `unwrap` when the read fails), and drain a nested
lexer over its contents into the current buffer. -/
def read_cpp_include : Nat → Fs → MacroMap → LexerState → Res (MacroMap × LexerState)
  | 0, _, _, _ => .diverge
  | n + 1, fs, m, st =>
    (skip n "<" st).bind fun (b, st) =>
    ((if b then
        (include_fname_loop n "" st).bind fun (fname, st) =>
        (peek_next st).bind fun (_, st) =>
        (.ok (fname, st) : Res (String × LexerState))
      else .ok ("", st))).bind fun (filename, st) =>
    match cpp_try_include fs filename with
    | none => .fatalErr st.cur_line ("not found '" ++ filename ++ "'")
    | some real_filename =>
      match fs.readFile real_filename with
      | none => .panicked
      | some body => drain_include n fs m (Lexer.new filename body) st

/-- The `while let Some(tok) = lexer.get()` loop of `read_cpp_include`:
every token of the nested lexer is pushed onto the including lexer's
buffer; the shared macro table is threaded through. -/
def drain_include : Nat → Fs → MacroMap → LexerState → LexerState → Res (MacroMap × LexerState)
  | 0, _, _, _, _ => .diverge
  | n + 1, fs, m, nested, parent =>
    (get n fs m nested).bind fun (ot, m, nested) =>
    match ot with
    | some tok => drain_include n fs m nested { parent with buf := parent.buf ++ [tok] }
    | none => .ok (m, parent)

/-- `Lexer::read_cpp_define`: read the macro name (`unwrap` panic at end
of input, `assert_eq!` panic when it is not an identifier), fail fatally
(`error_exit`) when the next token is `(`, otherwise record the tokens
up to the next newline as the replacement list. -/
def read_cpp_define : Nat → MacroMap → LexerState → Res (MacroMap × LexerState)
  | 0, _, _ => .diverge
  | n + 1, m, st =>
    (do_read_token n st).bind fun (omcro, st) =>
    match omcro with
    | none => .panicked
    | some mcro =>
      if mcro.kind ≠ TokenKind.Identifier then .panicked
      else
        (skip n "(" st).bind fun (b, st) =>
        if b then .fatalErr st.cur_line "unsupported"
        else
          (define_body_loop n [] st).bind fun (body, st) =>
          .ok ((mcro.val, Macro.Object body) :: m, st)

/-- The body-accumulation loop of `read_cpp_define`: raw tokens up to
(and excluding) the next newline token; `unwrap` panics at end of
input. -/
def define_body_loop : Nat → List Token → LexerState → Res (List Token × LexerState)
  | 0, _, _ => .diverge
  | n + 1, acc, st =>
    (do_read_token n st).bind fun (oc, st) =>
    match oc with
    | none => .panicked
    | some c =>
      if c.kind = TokenKind.Newline then .ok (acc, st)
      else define_body_loop n (acc ++ [c]) st

end

/-- Repeatedly call `get` until it reports end of input, collecting the
tokens a consumer would see (the `main.rs` driver loop). -/
def getTokens : Nat → Fs → MacroMap → LexerState → Res (List Token × MacroMap × LexerState)
  | 0, _, _, _ => .diverge
  | n + 1, fs, m, st =>
    (get n fs m st).bind fun (ot, m, st) =>
    match ot with
    | none => .ok ([], m, st)
    | some t =>
      (getTokens n fs m st).bind fun (ts, m, st) =>
      .ok (t :: ts, m, st)

/-- Whole-run token stream of an input string, starting from a fresh
lexer and an empty macro table. -/
def runTokens (fuel : Nat) (fs : Fs) (input : String) : Res (List Token) :=
  (getTokens fuel fs [] (Lexer.new "main.c" input)).bind fun (ts, _, _) =>
  .ok ts

end Lexer

/-! ## The constant-folding evaluator of src/node.rs

`CBinOps` and the operator-level computation of
`BinaryOpAst::eval_constexpr` over `i32` operands.  The recursive
descent of `eval_constexpr` only fetches the two operand values
(`AST::Int(n)` yields `n`, anything non-integer panics), so the claims
concern the per-operator `i32` computation embedded here.  `i32` values
are integers in `[-2^31, 2^31)`; arithmetic follows release-profile
Rust: `+ - * <<` wrap modulo `2^32`, shift amounts are masked to five
bits, and division/remainder panic (`none`) on a zero divisor and on
the overflowing pair `(i32::MIN, -1)`. -/

namespace Node

/-- `CBinOps` from src/node.rs: the eighteen C binary operators. -/
inductive CBinOps where
  | Add | Sub | Mul | Div | Rem
  | And | Or | Xor
  | LAnd | LOr
  | Eq | Ne | Lt | Gt | Le | Ge
  | Shl | Shr
deriving DecidableEq

/-- Reduce an integer into the `i32` value range `[-2^31, 2^31)`
(two's-complement wrap-around). -/
def wrap32 (x : Int) : Int :=
  (x + 2 ^ 31) % 2 ^ 32 - 2 ^ 31

/-- Membership in the `i32` value range. -/
def inRange32 (x : Int) : Prop :=
  -(2 ^ 31) ≤ x ∧ x < 2 ^ 31

instance (x : Int) : Decidable (inRange32 x) :=
  inferInstanceAs (Decidable (_ ∧ _))

/-- The `u32` bit pattern of an `i32` value. -/
def toU32 (x : Int) : Nat :=
  (x % 2 ^ 32).toNat

/-- The `match self.op` of `BinaryOpAst::eval_constexpr`, applied to the
two evaluated `i32` operands; `none` is a Rust panic (division or
remainder by zero, or their overflow at `(i32::MIN, -1)`). -/
def eval_constexpr (op : CBinOps) (lhs rhs : Int) : Option Int :=
  match op with
  | .Add => some (wrap32 (lhs + rhs))
  | .Sub => some (wrap32 (lhs - rhs))
  | .Mul => some (wrap32 (lhs * rhs))
  | .Div =>
    if rhs = 0 ∨ (lhs = -(2 ^ 31) ∧ rhs = -1) then none
    else some (Int.tdiv lhs rhs)
  | .Rem =>
    if rhs = 0 ∨ (lhs = -(2 ^ 31) ∧ rhs = -1) then none
    else some (Int.tmod lhs rhs)
  | .And => some (wrap32 (Int.ofNat (Nat.land (toU32 lhs) (toU32 rhs))))
  | .Or => some (wrap32 (Int.ofNat (Nat.lor (toU32 lhs) (toU32 rhs))))
  | .Xor => some (wrap32 (Int.ofNat (Nat.xor (toU32 lhs) (toU32 rhs))))
  | .LAnd => some (if lhs ≠ 0 ∧ rhs ≠ 0 then 1 else 0)
  | .LOr => some (if lhs ≠ 0 ∨ rhs ≠ 0 then 1 else 0)
  | .Eq => some (if lhs = rhs then 1 else 0)
  | .Ne => some (if lhs ≠ rhs then 1 else 0)
  | .Lt => some (if lhs < rhs then 1 else 0)
  | .Gt => some (if rhs < lhs then 1 else 0)
  | .Le => some (if lhs ≤ rhs then 1 else 0)
  | .Ge => some (if rhs ≤ lhs then 1 else 0)
  | .Shl => some (wrap32 (lhs * 2 ^ (rhs % 32).toNat))
  | .Shr => some (lhs / 2 ^ (rhs % 32).toNat)

/-- The logical and relational operators, whose results the spec pins to
`0` or `1`. -/
def isLogicalRelational (op : CBinOps) : Bool :=
  match op with
  | .LAnd | .LOr | .Eq | .Ne | .Lt | .Gt | .Le | .Ge => true
  | _ => false

end Node

/-! ## Helper lemmas -/

@[simp] theorem Res.bind_ok {α β : Type} (a : α) (f : α → Res β) :
    (Res.ok a).bind f = f a := rfl

@[simp] theorem Res.bind_fatalErr {α β : Type} (l : Int) (m : String)
    (f : α → Res β) : (Res.fatalErr l m : Res α).bind f = .fatalErr l m := rfl

@[simp] theorem Res.bind_panicked {α β : Type} (f : α → Res β) :
    (Res.panicked : Res α).bind f = .panicked := rfl

@[simp] theorem Res.bind_diverge {α β : Type} (f : α → Res β) :
    (Res.diverge : Res α).bind f = .diverge := rfl

open Lexer Node

/-- The string-literal loop accumulates every character up to the first
`"` of the stream and stops there, whatever those characters are
(backslashes included). -/
theorem read_strlit_loop_no_quote (s : List Char) :
    ∀ (fuel : Nat) (acc : String) (t : List Char) (line : Int) (name : String)
      (buf : List Token), (∀ c ∈ s, c ≠ '\"') → s.length + 1 ≤ fuel →
    read_strlit_loop fuel acc ⟨line, name, s ++ '\"' :: t, [], buf⟩ =
      .ok (⟨acc.data ++ s⟩, ⟨line, name, '\"' :: t, [], buf⟩) := by
  induction s with
  | nil =>
    intro fuel acc t line name buf hq hf
    obtain ⟨n, rfl⟩ : ∃ n, fuel = n + 1 := ⟨fuel - 1, by omega⟩
    simp [read_strlit_loop, peek_char_is, peek_get]
  | cons c cs ih =>
    intro fuel acc t line name buf hq hf
    obtain ⟨n, rfl⟩ : ∃ n, fuel = n + 1 := ⟨fuel - 1, by omega⟩
    have hc : (c == '\"') = false := beq_eq_false_iff_ne.mpr (hq c (by simp))
    simp only [read_strlit_loop, peek_char_is, peek_get, List.cons_append,
      List.head?_nil, List.head?_cons, Option.or_none, Option.or] at *
    simp only [hc, Res.bind_ok, if_neg Bool.false_ne_true, peek_next]
    rw [ih n (acc.push c) t line name buf (fun d hd => hq d (by simp [hd]))
      (by simp at hf ⊢; omega)]
    simp [String.push]

/-- When the stream holds no `"` at all, the string-literal loop runs to
the end of the input and dies there with the line-tagged fatal error of
`peek_char_is`. -/
theorem read_strlit_loop_unterminated (s : List Char) :
    ∀ (fuel : Nat) (acc : String) (line : Int) (name : String)
      (buf : List Token), (∀ c ∈ s, c ≠ '\"') → s.length + 1 ≤ fuel →
    read_strlit_loop fuel acc ⟨line, name, s, [], buf⟩ =
      .fatalErr line (errExpected '\"') := by
  induction s with
  | nil =>
    intro fuel acc line name buf hq hf
    obtain ⟨n, rfl⟩ : ∃ n, fuel = n + 1 := ⟨fuel - 1, by omega⟩
    simp [read_strlit_loop, peek_char_is, peek_get]
  | cons c cs ih =>
    intro fuel acc line name buf hq hf
    obtain ⟨n, rfl⟩ : ∃ n, fuel = n + 1 := ⟨fuel - 1, by omega⟩
    have hc : (c == '\"') = false := beq_eq_false_iff_ne.mpr (hq c (by simp))
    simp only [read_strlit_loop, peek_char_is, peek_get, List.head?_nil,
      List.head?_cons, Option.or_none, Option.or]
    simp only [hc, Res.bind_ok, if_neg Bool.false_ne_true, peek_next]
    rw [ih n (acc.push c) line name buf (fun d hd => hq d (by simp [hd]))
      (by simp at hf ⊢; omega)]

/-- Wrapping into the `i32` range really lands in the range. -/
theorem wrap32_inRange (x : Int) : inRange32 (wrap32 x) := by
  unfold wrap32 inRange32
  have h1 : 0 ≤ (x + 2 ^ 31) % 2 ^ 32 := Int.emod_nonneg _ (by norm_num)
  have h2 : (x + 2 ^ 31) % 2 ^ 32 < 2 ^ 32 := Int.emod_lt_of_pos _ (by norm_num)
  have e1 : (2 : Int) ^ 31 = 2147483648 := by norm_num
  have e2 : (2 : Int) ^ 32 = 4294967296 := by norm_num
  rw [e1, e2] at *
  omega

/-- Wrapping preserves the residue modulo `2^32`. -/
theorem wrap32_emod (x : Int) : wrap32 x % 2 ^ 32 = x % 2 ^ 32 := by
  unfold wrap32
  conv_lhs => rw [Int.sub_emod, Int.emod_emod, ← Int.sub_emod]
  simp

/-- T-rounding remainder in terms of natural-number remainder of the
absolute values. -/
theorem natAbs_tmod (a b : Int) :
    (Int.tmod a b).natAbs = a.natAbs % b.natAbs := by
  cases a <;> cases b <;> simp only [Int.tmod, Int.natAbs_neg] <;> rfl

/-- Guarded `i32` division stays in range: the only escaping quotient
would be `(-2^31).tdiv (-1) = 2^31`, which the guard excludes. -/
theorem tdiv_inRange (a b : Int) (ha : inRange32 a) (hb : inRange32 b)
    (hb0 : b ≠ 0) (hov : ¬(a = -(2 ^ 31) ∧ b = -1)) :
    inRange32 (Int.tdiv a b) := by
  have e1 : (2 : Int) ^ 31 = 2147483648 := by norm_num
  unfold inRange32 at *
  rw [e1] at ha hb hov ⊢
  have hna : a.natAbs ≤ 2147483648 := by omega
  have hnb1 : 1 ≤ b.natAbs := by omega
  rcases Nat.lt_or_ge b.natAbs 2 with h2 | h2
  · have hb1 : b.natAbs = 1 := by omega
    rcases Int.natAbs_eq_iff.mp hb1 with h | h
    · have h1 : b = 1 := by exact_mod_cast h
      rw [h1, Int.tdiv_one]
      omega
    · have h1 : b = -1 := by exact_mod_cast h
      have hA : a ≠ -2147483648 := fun hEq => hov ⟨hEq, h1⟩
      rw [h1, show (-1 : Int) = -(1 : Int) from rfl, Int.tdiv_neg,
        Int.tdiv_one]
      omega
  · have hq : (Int.tdiv a b).natAbs = a.natAbs / b.natAbs := Int.natAbs_tdiv a b
    have hd2 : a.natAbs / b.natAbs ≤ a.natAbs / 2 :=
      Nat.div_le_div_left h2 (by norm_num)
    have hd3 : a.natAbs / 2 ≤ 2147483648 / 2 := Nat.div_le_div_right hna
    omega

/-- `i32` remainder by a non-zero in-range divisor stays in range. -/
theorem tmod_inRange (a b : Int) (hb : inRange32 b) (hb0 : b ≠ 0) :
    inRange32 (Int.tmod a b) := by
  have e1 : (2 : Int) ^ 31 = 2147483648 := by norm_num
  unfold inRange32 at *
  rw [e1] at hb ⊢
  have hq := natAbs_tmod a b
  have hlt : a.natAbs % b.natAbs < b.natAbs := Nat.mod_lt _ (by omega)
  have hnb : b.natAbs ≤ 2147483648 := by omega
  omega

/-- Arithmetic right shift (floor division by a power of two) of an
in-range value stays in range. -/
theorem ediv_pow_inRange (a : Int) (n : Nat) (ha : inRange32 a) :
    inRange32 (a / 2 ^ n) := by
  have e1 : (2 : Int) ^ 31 = 2147483648 := by norm_num
  have hd0 : (0 : Int) < 2 ^ n := pow_pos (by norm_num) n
  have hd1 : (1 : Int) ≤ 2 ^ n := hd0
  unfold inRange32 at *
  rw [e1] at ha ⊢
  rcases le_or_lt 0 a with hpos | hneg
  · have h1 : a / 2 ^ n ≤ a := Int.ediv_le_self _ hpos
    have h2 : 0 ≤ a / 2 ^ n := Int.ediv_nonneg hpos hd0.le
    omega
  · have h1 : a ≤ a / 2 ^ n := by
      rw [Int.le_ediv_iff_mul_le hd0]
      calc a * 2 ^ n ≤ a * 1 := mul_le_mul_of_nonpos_left hd1 hneg.le
        _ = a := mul_one a
    have h2 : a / 2 ^ n ≤ 0 := by
      have := Int.ediv_le_ediv hd0 hneg.le
      simpa using this
    omega

/-! ## Claims -/

/-- C1: the spec claims that after `#define FOO 1 + 2`, scanning `FOO;`
yields `1`, `+`, `2`, `;`.  The code instead yields `2`, `+`, `1`, `;`:
`expand` iterates the replacement list in reverse while `unget` pushes
onto the back of the same queue `do_read_token` pops from the front, so
the replacement comes out reversed.  This theorem evaluates the lexer at
the failing input, exhibiting the reversed stream. -/
theorem claim_C1_failing_run :
    runTokens 200 emptyFs "#define FOO 1 + 2\nFOO;" =
      .ok [⟨.IntNumber, true, "2", 1⟩, ⟨.Symbol, true, "+", 1⟩,
           ⟨.IntNumber, true, "1", 1⟩, ⟨.Symbol, false, ";", 2⟩] := by
  decide

/-- C2: the spec claims `unget` is prepend-equivalent for every buffer
state.  With a non-empty token buffer the code appends instead:
`unget` is `buf.push_back` while `read_token` pops the front, so after
`unget(y)` on a buffer already holding `x`, the next `read_token`
returns `x`, not `y`. -/
theorem claim_C2_failing_run :
    read_token 50 (unget (Token.new .Symbol "y" 1)
        ⟨1, "main.c", [], [], [Token.new .Symbol "x" 1]⟩) =
      .ok (some (Token.new .Symbol "x" 1),
        ⟨1, "main.c", [], [], [Token.new .Symbol "y" 1]⟩) := by
  decide

/-- C3 counterexample: on `a/*x\ny*/b` the code elides the comment and
yields exactly `a` then `b`, but the newline inside the block comment is
consumed by `peek_next` without touching the line counter, so `b` is
reported on line 1, the same line as `a` — not one greater as claimed. -/
theorem claim_C3_counterexample :
    getTokens 200 emptyFs [] (Lexer.new "main.c" "a/*x\ny*/b") =
      .ok ([Token.new .Identifier "a" 1, Token.new .Identifier "b" 1], [],
           ⟨1, "main.c", [], [], []⟩) := by
  decide

/-- C3 amended: scanning `a/*x\ny*/b` yields exactly
`Identifier "a"` then `Identifier "b"`, with the block comment fully
elided, but the line counter does not advance across the newline inside
the comment: both tokens report line 1. -/
theorem claim_C3_amended :
    runTokens 200 emptyFs "a/*x\ny*/b" =
      .ok [Token.new .Identifier "a" 1, Token.new .Identifier "b" 1] := by
  decide

/-- C4 counterexample: the spec claims a backslash-escaped `"` does not
terminate a string literal.  The scanner has no escape handling: on
input `"a\"b"` the literal ends at the escaped quote, producing the
two-character contents `a\` instead of extending past it. -/
theorem claim_C4_counterexample :
    Lexer.get 100 emptyFs [] (Lexer.new "main.c" "\"a\\\"b\"") =
      .ok (some ⟨.String, false, "a\\", 1⟩, [],
           ⟨1, "main.c", ['b', '\"'], [], []⟩) := by
  decide

/-- C4 amended: on meeting `"` the scanner consumes characters verbatim
up to the first following `"` — escaped or not — and returns a
StringLiteral holding exactly those characters, consuming the closing
quote; a backslash does not protect a quote. -/
theorem claim_C4_amended :
    ∀ (s t : List Char) (line : Int) (name : String) (fuel : Nat),
    (∀ c ∈ s, c ≠ '\"') → s.length + 3 ≤ fuel →
    read_token fuel ⟨line, name, '\"' :: (s ++ '\"' :: t), [], []⟩ =
      .ok (some ⟨.String, false, ⟨s⟩, line⟩, ⟨line, name, t, [], []⟩) := by
  intro s t line name fuel hq hf
  obtain ⟨n, rfl⟩ : ∃ n, fuel = n + 1 + 1 := ⟨fuel - 2, by omega⟩
  have hloop := read_strlit_loop_no_quote s n "" t line name [] hq (by omega)
  have h1 : isAlphaUS '\"' = false := by decide
  have h2 : isDigitC '\"' = false := by decide
  simp [read_token, do_read_token, peek_get, read_string_literal, peek_next,
    hloop, h1, h2, Token.new]

/-- C4 witness: the amended statement at the concrete literal contents
`a\` (a backslash immediately before the terminating quote), remaining
input `b`. -/
theorem claim_C4_witness :
    read_token 10 ⟨1, "main.c", '\"' :: (['a', '\\'] ++ '\"' :: ['b']), [], []⟩ =
      .ok (some ⟨.String, false, ⟨['a', '\\']⟩, 1⟩, ⟨1, "main.c", ['b'], [], []⟩) :=
  claim_C4_amended ['a', '\\'] ['b'] 1 "main.c" 10 (by decide) (by decide)

/-- C5 counterexample: the spec claims that a `#include` not followed by
`<` is silently skipped, neither failing nor probing any file.  The code
runs the include machinery regardless: with the empty filename it probes
the six search prefixes and, when none exists, dies with the fatal
not-found error — so `get()` both probes and fails. -/
theorem claim_C5_counterexample :
    runTokens 200 emptyFs "#include x\ny" = .fatalErr 1 "not found ''" := by
  decide

/-- C5 amended: when `<` is absent after `#include`, the include is not
skipped: the directive proceeds with the empty filename, probing the
fixed search prefixes, and on any filesystem on which no path exists
(and no read succeeds) the run terminates with the fatal
include-not-found error naming the empty filename. -/
theorem claim_C5_amended :
    ∀ fs : Fs, (∀ p, fs.pathExists p = false) → (∀ p, fs.readFile p = none) →
    Lexer.get 200 fs [] (Lexer.new "main.c" "#include x\ny") =
      .fatalErr 1 "not found ''" := by
  intro fs h1 h2
  obtain ⟨pe, rf⟩ := fs
  have hpe : pe = fun _ => false := funext h1
  have hrf : rf = fun _ => none := funext h2
  subst hpe; subst hrf
  decide

/-- C5 witness: the amended statement at the concrete empty
filesystem. -/
theorem claim_C5_witness :
    Lexer.get 200 emptyFs [] (Lexer.new "main.c" "#include x\ny") =
      .fatalErr 1 "not found ''" :=
  claim_C5_amended emptyFs (fun _ => rfl) (fun _ => rfl)

/-- C6 counterexample: the spec claims a `(` separated from the macro
name by whitespace is recorded as an object-like macro.  The code's
`skip("(")` compares only the spelling of the next token and ignores its
leading-space flag, so `#define FOO (1)` also dies with the fatal
`unsupported` error instead of defining `FOO`. -/
theorem claim_C6_counterexample :
    runTokens 200 emptyFs "#define FOO (1)\nX" =
      .fatalErr 1 "unsupported" := by
  decide

/-- C6 amended: `#define` fails with the fatal unsupported-feature error
whenever the first token after the macro name spells `(`, with or
without intervening whitespace (`#define FOO(x)` and `#define FOO (1)`
both die); only a definition whose body does not start with `(` is
recorded as an object-like macro (here `FOO ↦ 1`, which the following
use then expands). -/
theorem claim_C6_amended :
    runTokens 200 emptyFs "#define FOO(x)\nX" = .fatalErr 1 "unsupported" ∧
    runTokens 200 emptyFs "#define FOO (1)\nX" = .fatalErr 1 "unsupported" ∧
    getTokens 200 emptyFs [] (Lexer.new "main.c" "#define FOO 1\nFOO") =
      .ok ([⟨.IntNumber, true, "1", 1⟩],
           [("FOO", Macro.Object [⟨.IntNumber, true, "1", 1⟩])],
           ⟨2, "main.c", [], [], []⟩) := by
  refine ⟨by decide, by decide, by decide⟩

/-- C7 counterexample: the spec claims the input `..` yields the two
tokens `Symbol "."`, `Symbol "."`.  On exactly `..` the two-character
lookahead `peek_next_char_is` runs off the end of the input and the
lexer panics (`unwrap` on `None`) before producing any token. -/
theorem claim_C7_counterexample :
    runTokens 200 emptyFs ".." = .panicked := by
  decide

/-- C7 amended: the maximal-munch boundary cases hold as claimed for
`<<=` (one token), `<<` before a non-`=` (token `<<`, next token fresh),
and `...` (one token); `..` yields two `.` tokens when at least one
character follows (for any following character other than a third `.`),
but on an input that ends immediately after `..` the two-character
lookahead panics before producing any token. -/
theorem claim_C7_amended :
    runTokens 200 emptyFs "<<=" = .ok [⟨.Symbol, false, "<<=", 1⟩] ∧
    runTokens 200 emptyFs "<<a" =
      .ok [⟨.Symbol, false, "<<", 1⟩, ⟨.Identifier, false, "a", 1⟩] ∧
    runTokens 200 emptyFs "..." = .ok [⟨.Symbol, false, "...", 1⟩] ∧
    (∀ (c : Char), c ≠ '.' → ∀ (n : Nat),
      Lexer.get (n + 1 + 1 + 1) emptyFs []
          ⟨1, "main.c", ['.', '.', c], [], []⟩ =
        .ok (some (Token.new .Symbol "." 1), [],
             ⟨1, "main.c", [], ['.', c], []⟩) ∧
      Lexer.get (n + 1 + 1 + 1) emptyFs [] ⟨1, "main.c", [], ['.', c], []⟩ =
        .ok (some (Token.new .Symbol "." 1), [],
             ⟨1, "main.c", [], [c], []⟩)) ∧
    runTokens 200 emptyFs ".." = .panicked := by
  refine ⟨by decide, by decide, by decide, ?_, by decide⟩
  intro c hc n
  have hcb : (c == '.') = false := beq_eq_false_iff_ne.mpr hc
  have hA : isAlphaUS '.' = false := by decide
  have hD : isDigitC '.' = false := by decide
  have hS1 : (['+', '-', '*', '/', '%', '=', '^', '!'].contains '.') = false := by
    decide
  have hS2 : (['<', '>', '&', '|'].contains '.') = false := by decide
  have hrt1 : read_token (n + 1 + 1) ⟨1, "main.c", ['.', '.', c], [], []⟩ =
      .ok (some (Token.new .Symbol "." 1), ⟨1, "main.c", [], ['.', c], []⟩) := by
    simp [read_token, do_read_token, read_symbol, peek_char_is, peek_next,
      peek_next_char_is, peek_get, peek_unget, hA, hD, hS1, hS2, hcb, Token.new]
  have hrt2 : read_token (n + 1 + 1) ⟨1, "main.c", [], ['.', c], []⟩ =
      .ok (some (Token.new .Symbol "." 1), ⟨1, "main.c", [], [c], []⟩) := by
    simp [read_token, do_read_token, read_symbol, peek_char_is, peek_next,
      peek_next_char_is, peek_get, peek_unget, hA, hD, hS1, hS2, hcb, Token.new]
  constructor
  · simp only [Lexer.get, hrt1, Res.bind_ok]
    simp [expand, Token.new, List.lookup]
  · simp only [Lexer.get, hrt2, Res.bind_ok]
    simp [expand, Token.new, List.lookup]

/-- C7 witness: the quantified `..`-then-character conjunct of the
amended statement at the concrete input `..a` with the smallest fuel. -/
theorem claim_C7_witness :
    Lexer.get 3 emptyFs [] ⟨1, "main.c", ['.', '.', 'a'], [], []⟩ =
      .ok (some (Token.new .Symbol "." 1), [],
           ⟨1, "main.c", [], ['.', 'a'], []⟩) ∧
    Lexer.get 3 emptyFs [] ⟨1, "main.c", [], ['.', 'a'], []⟩ =
      .ok (some (Token.new .Symbol "." 1), [], ⟨1, "main.c", [], ['a'], []⟩) :=
  claim_C7_amended.2.2.2.1 'a' (by decide) 0

/-- C8: for every input that ends inside an unterminated string literal
(an opening `"` never closed), tokenization terminates — with fuel
linear in the remaining input — in the line-tagged fatal error raised
at end of input, rather than hanging or producing a token.  The error
channel (`error.rs` is not among the sources) is modelled from the
spec, whose taxonomy names this fatal error `UnterminatedLiteral`. -/
theorem claim_C8_unterminated :
    ∀ (s : List Char) (line : Int) (name : String) (fuel : Nat)
      (fs : Fs) (m : MacroMap),
    (∀ c ∈ s, c ≠ '\"') → s.length + 4 ≤ fuel →
    Lexer.get fuel fs m ⟨line, name, '\"' :: s, [], []⟩ =
      .fatalErr line (errExpected '\"') := by
  intro s line name fuel fs m hq hf
  obtain ⟨n, rfl⟩ : ∃ n, fuel = n + 1 + 1 + 1 := ⟨fuel - 3, by omega⟩
  have hloop := read_strlit_loop_unterminated s n "" line name [] hq (by omega)
  have h1 : isAlphaUS '\"' = false := by decide
  have h2 : isDigitC '\"' = false := by decide
  simp [Lexer.get, read_token, do_read_token, peek_get, read_string_literal,
    peek_next, hloop, h1, h2]

/-- C8 witness: the unterminated input `"abc`. -/
theorem claim_C8_witness :
    Lexer.get 10 emptyFs [] ⟨1, "main.c", '\"' :: ['a', 'b', 'c'], [], []⟩ =
      .fatalErr 1 (errExpected '\"') :=
  claim_C8_unterminated ['a', 'b', 'c'] 1 "main.c" 10 emptyFs [] (by decide)
    (by decide)

/-- C9 counterexample: the spec claims every pair of `i32` operands with
a non-zero right operand is computed by the natural `i32` mapping, but
`i32::MIN / -1` overflows and Rust's checked division panics (in every
build profile), so the evaluator produces no value there. -/
theorem claim_C9_counterexample :
    eval_constexpr CBinOps.Div (-(2 ^ 31)) (-1) = none := by
  decide

/-- C9 amended: for in-range `i32` operands — excluding, for division
and remainder, the zero divisor and the overflowing pair
`(-2^31, -1)`, on which the checked operations panic — every one of the
eighteen operators produces an in-range `i32` value by its natural
two's-complement mapping (wrapping arithmetic, shift amounts masked to
five bits, truncating division), and every logical or relational
operator yields exactly 0 or 1; witnessed here by the 0/1 law, the
order-theoretic meaning of `<`, the congruence of `+` modulo `2^32`,
and the truncating-division value of `/`. -/
theorem claim_C9_amended :
    ∀ (op : CBinOps) (a b : Int), inRange32 a → inRange32 b →
    ((op = CBinOps.Div ∨ op = CBinOps.Rem) →
      b ≠ 0 ∧ ¬(a = -(2 ^ 31) ∧ b = -1)) →
    ∃ r : Int, eval_constexpr op a b = some r ∧ inRange32 r ∧
      (isLogicalRelational op = true → r = 0 ∨ r = 1) ∧
      (op = CBinOps.Lt → (r = 1 ↔ a < b)) ∧
      (op = CBinOps.Add → r % 2 ^ 32 = (a + b) % 2 ^ 32) ∧
      (op = CBinOps.Div → r = Int.tdiv a b) := by
  intro op a b ha hb hg
  cases op with
  | Add =>
    exact ⟨wrap32 (a + b), rfl, wrap32_inRange _,
      fun h => absurd h (by decide), fun h => absurd h (by decide),
      fun _ => wrap32_emod (a + b), fun h => absurd h (by decide)⟩
  | Sub =>
    exact ⟨wrap32 (a - b), rfl, wrap32_inRange _,
      fun h => absurd h (by decide), fun h => absurd h (by decide),
      fun h => absurd h (by decide), fun h => absurd h (by decide)⟩
  | Mul =>
    exact ⟨wrap32 (a * b), rfl, wrap32_inRange _,
      fun h => absurd h (by decide), fun h => absurd h (by decide),
      fun h => absurd h (by decide), fun h => absurd h (by decide)⟩
  | Div =>
    obtain ⟨hb0, hov⟩ := hg (Or.inl rfl)
    have hcond : ¬(b = 0 ∨ (a = -(2 ^ 31) ∧ b = -1)) := not_or.mpr ⟨hb0, hov⟩
    refine ⟨Int.tdiv a b, ?_, tdiv_inRange a b ha hb hb0 hov,
      fun h => absurd h (by decide), fun h => absurd h (by decide),
      fun h => absurd h (by decide), fun _ => rfl⟩
    simp only [eval_constexpr]
    rw [if_neg hcond]
  | Rem =>
    obtain ⟨hb0, hov⟩ := hg (Or.inr rfl)
    have hcond : ¬(b = 0 ∨ (a = -(2 ^ 31) ∧ b = -1)) := not_or.mpr ⟨hb0, hov⟩
    refine ⟨Int.tmod a b, ?_, tmod_inRange a b hb hb0,
      fun h => absurd h (by decide), fun h => absurd h (by decide),
      fun h => absurd h (by decide), fun h => absurd h (by decide)⟩
    simp only [eval_constexpr]
    rw [if_neg hcond]
  | And =>
    exact ⟨_, rfl, wrap32_inRange _,
      fun h => absurd h (by decide), fun h => absurd h (by decide),
      fun h => absurd h (by decide), fun h => absurd h (by decide)⟩
  | Or =>
    exact ⟨_, rfl, wrap32_inRange _,
      fun h => absurd h (by decide), fun h => absurd h (by decide),
      fun h => absurd h (by decide), fun h => absurd h (by decide)⟩
  | Xor =>
    exact ⟨_, rfl, wrap32_inRange _,
      fun h => absurd h (by decide), fun h => absurd h (by decide),
      fun h => absurd h (by decide), fun h => absurd h (by decide)⟩
  | LAnd =>
    refine ⟨_, rfl, ?_, fun _ => ?_,
      fun h => absurd h (by decide), fun h => absurd h (by decide),
      fun h => absurd h (by decide)⟩
    · split <;> decide
    · split <;> simp
  | LOr =>
    refine ⟨_, rfl, ?_, fun _ => ?_,
      fun h => absurd h (by decide), fun h => absurd h (by decide),
      fun h => absurd h (by decide)⟩
    · split <;> decide
    · split <;> simp
  | Eq =>
    refine ⟨_, rfl, ?_, fun _ => ?_,
      fun h => absurd h (by decide), fun h => absurd h (by decide),
      fun h => absurd h (by decide)⟩
    · split <;> decide
    · split <;> simp
  | Ne =>
    refine ⟨_, rfl, ?_, fun _ => ?_,
      fun h => absurd h (by decide), fun h => absurd h (by decide),
      fun h => absurd h (by decide)⟩
    · split <;> decide
    · split <;> simp
  | Lt =>
    refine ⟨_, rfl, ?_, fun _ => ?_, fun _ => ?_,
      fun h => absurd h (by decide), fun h => absurd h (by decide)⟩
    · split <;> decide
    · split <;> simp
    · by_cases hab : a < b <;> simp [hab]
  | Gt =>
    refine ⟨_, rfl, ?_, fun _ => ?_,
      fun h => absurd h (by decide), fun h => absurd h (by decide),
      fun h => absurd h (by decide)⟩
    · split <;> decide
    · split <;> simp
  | Le =>
    refine ⟨_, rfl, ?_, fun _ => ?_,
      fun h => absurd h (by decide), fun h => absurd h (by decide),
      fun h => absurd h (by decide)⟩
    · split <;> decide
    · split <;> simp
  | Ge =>
    refine ⟨_, rfl, ?_, fun _ => ?_,
      fun h => absurd h (by decide), fun h => absurd h (by decide),
      fun h => absurd h (by decide)⟩
    · split <;> decide
    · split <;> simp
  | Shl =>
    exact ⟨_, rfl, wrap32_inRange _,
      fun h => absurd h (by decide), fun h => absurd h (by decide),
      fun h => absurd h (by decide), fun h => absurd h (by decide)⟩
  | Shr =>
    exact ⟨_, rfl, ediv_pow_inRange a _ ha,
      fun h => absurd h (by decide), fun h => absurd h (by decide),
      fun h => absurd h (by decide), fun h => absurd h (by decide)⟩

/-- C9 witness: the amended statement at the relational operator `<`
with concrete in-range operands `-3 < 5`. -/
theorem claim_C9_witness :
    ∃ r : Int, eval_constexpr CBinOps.Lt (-3) 5 = some r ∧ inRange32 r ∧
      (isLogicalRelational CBinOps.Lt = true → r = 0 ∨ r = 1) ∧
      (CBinOps.Lt = CBinOps.Lt → (r = 1 ↔ (-3 : Int) < 5)) ∧
      (CBinOps.Lt = CBinOps.Add →
        r % 2 ^ 32 = ((-3 : Int) + 5) % 2 ^ 32) ∧
      (CBinOps.Lt = CBinOps.Div → r = Int.tdiv (-3) 5) :=
  claim_C9_amended CBinOps.Lt (-3) 5 (by decide) (by decide)
    (fun h => absurd h (by decide))

/-- C10: with `#` as the last token of the input, or with a `#include`
or `#define` directive truncated by end of input, `get()` panics via
`unwrap` on `None` instead of reporting end of input or a declared
fatal error. -/
theorem claim_C10_panics :
    runTokens 200 emptyFs "#" = .panicked ∧
    runTokens 200 emptyFs "#include" = .panicked ∧
    runTokens 200 emptyFs "#define" = .panicked := by
  refine ⟨by decide, by decide, by decide⟩

end Rcc
